import Mathlib

/-!
Shallow embedding of the in-memory price-record store of `src/src/main.rs`
(an axum HTTP service over `Arc<RwLock<Vec<PriceDto>>>`), together with
proofs of the CRUD contract stated in the specification.

Modelling choices:
* `Uuid` is modelled as `Nat` — the program only ever compares ids for
  equality, so any infinite type with decidable equality is faithful.
* `u64` prices are modelled as `Nat` — prices are only stored and copied,
  never subjected to arithmetic, so no overflow reduction is needed.
* Each axum handler takes the locked `Vec<PriceDto>` and returns the new
  vector together with its `Result` value; the `RwLock` serialises the
  handlers, so each handler is one atomic state transformer.
* `Uuid::new_v4()` draws a fresh identifier from the environment; it is
  modelled as an explicit parameter of `create_price`, with freshness
  (no collision with previously generated ids) as a hypothesis where the
  specification assumes it.
-/

/-- `PriceDto { id: Uuid, price: u64 }` from `src/src/main.rs`. -/
structure PriceDto where
  id : Nat
  price : Nat
  deriving DecidableEq, Repr

/-- The HTTP status codes the handlers in `src/src/main.rs` produce. -/
inductive StatusCode where
  | OK
  | NOT_FOUND
  deriving DecidableEq, Repr

/-- The state behind the `RwLock`: `Vec<PriceDto>`, created empty. -/
abbrev Store := List PriceDto

/-- `get_prices`: `Json(prices.read().unwrap().to_vec())` — returns a copy
of the whole vector and leaves the state untouched. -/
def get_prices (s : Store) : Store × List PriceDto :=
  (s, s)

/-- `create_price`: generates `id = Uuid::new_v4()` (here the explicit
`freshId` parameter), pushes `PriceDto { id, price }` onto the vector and
returns that record. -/
def create_price (s : Store) (freshId price : Nat) : Store × PriceDto :=
  (s ++ [⟨freshId, price⟩], ⟨freshId, price⟩)

/-- `get_price`: `prices.iter().find(|p| p.id == id)`, returning the found
record or `Err(StatusCode::NOT_FOUND)`; the state is only read. -/
def get_price (s : Store) (id : Nat) : Store × Except StatusCode PriceDto :=
  match s.find? (fun p => p.id == id) with
  | some p => (s, .ok p)
  | none => (s, .error .NOT_FOUND)

/-- `update_price`: `prices.iter_mut().find(|p| p.id == id)` — overwrite the
`price` field of the first record whose id matches, in place, and return the
updated record; `Err(StatusCode::NOT_FOUND)` when no record matches. -/
def update_price (s : Store) (id price : Nat) : Store × Except StatusCode PriceDto :=
  match s with
  | [] => ([], .error .NOT_FOUND)
  | p :: rest =>
    if p.id == id then
      ({ p with price := price } :: rest, .ok { p with price := price })
    else
      (p :: (update_price rest id price).1, (update_price rest id price).2)

/-- `delete_price`: `prices.iter().position(|p| p.id == id)` then
`prices.remove(position)` — remove the first record whose id matches;
`Err(StatusCode::NOT_FOUND)` when no record matches. -/
def delete_price (s : Store) (id : Nat) : Store × Except StatusCode StatusCode :=
  match s with
  | [] => ([], .error .NOT_FOUND)
  | p :: rest =>
    if p.id == id then (rest, .ok .OK)
    else (p :: (delete_price rest id).1, (delete_price rest id).2)

/-- One store operation of a client-visible mutation sequence. A `create`
carries the identifier the uuid generator produced for it. -/
inductive Op where
  | create (freshId price : Nat)
  | update (id price : Nat)
  | delete (id : Nat)
  deriving DecidableEq, Repr

/-- Apply one operation to the store, keeping only the state. -/
def applyOp (s : Store) : Op → Store
  | .create i p => (create_price s i p).1
  | .update i p => (update_price s i p).1
  | .delete i => (delete_price s i).1

/-- Run a sequence of operations from a given store. -/
def runFrom (s : Store) (ops : List Op) : Store :=
  ops.foldl applyOp s

/-- Run a sequence of operations from the initially empty store
(`RwLock::new(vec![])`). -/
def run (ops : List Op) : Store :=
  runFrom [] ops

/-- The identifiers generated by the uuid generator along a sequence:
one per `create`, in order. -/
def createIds : List Op → List Nat
  | [] => []
  | .create i _ :: ops => i :: createIds ops
  | .update _ _ :: ops => createIds ops
  | .delete _ :: ops => createIds ops

/-- The list of ids currently stored, in collection order. -/
def storeIds (s : Store) : List Nat :=
  s.map PriceDto.id

/-! ### Basic lemmas about the handlers -/

/-- When no stored record bears `id`, the linear scan of `update_price`
falls through to `NOT_FOUND` and rebuilds the vector unchanged. -/
lemma update_price_of_not_mem (s : Store) (id p : Nat)
    (h : ∀ r ∈ s, r.id ≠ id) :
    update_price s id p = (s, .error .NOT_FOUND) := by
  induction s with
  | nil => rfl
  | cons a rest ih =>
    have ha : (a.id == id) = false := by
      simpa using h a (by simp)
    have hrest := ih fun r hr => h r (by simp [hr])
    simp [update_price, ha, hrest]

/-- When no stored record bears `id`, `delete_price` falls through to
`NOT_FOUND` and rebuilds the vector unchanged. -/
lemma delete_price_of_not_mem (s : Store) (id : Nat)
    (h : ∀ r ∈ s, r.id ≠ id) :
    delete_price s id = (s, .error .NOT_FOUND) := by
  induction s with
  | nil => rfl
  | cons a rest ih =>
    have ha : (a.id == id) = false := by
      simpa using h a (by simp)
    have hrest := ih fun r hr => h r (by simp [hr])
    simp [delete_price, ha, hrest]

/-- `get_price` leaves the store component untouched. -/
lemma get_price_fst (s : Store) (id : Nat) : (get_price s id).1 = s := by
  unfold get_price
  cases s.find? (fun p => p.id == id) <;> rfl

/-! ### Claim theorems (easy group) -/

/-- C6: `list()` (handler `get_prices`) returns a snapshot copy of all
records in current collection order, never fails (its type admits no error),
and leaves the collection unchanged. -/
theorem get_prices_snapshot (s : Store) : get_prices s = (s, s) := rfl

/-- C9: `create(p)` appends the new record at the end of the collection:
the resulting collection is the prior collection followed by the single new
record, so every prior record keeps its value and position. -/
theorem create_price_appends (s : Store) (freshId p : Nat) :
    create_price s freshId p = (s ++ [⟨freshId, p⟩], ⟨freshId, p⟩) := rfl

/-- C4: `update(id, p)` on a collection holding no record with identifier
`id` fails with `NOT_FOUND` (HTTP 404) and leaves the collection identical
to what it was before the call. -/
theorem update_price_not_found (s : Store) (id p : Nat)
    (h : ∀ r ∈ s, r.id ≠ id) :
    update_price s id p = (s, .error .NOT_FOUND) :=
  update_price_of_not_mem s id p h

/-- C4 witness. -/
theorem update_price_not_found_witness :
    (∀ r ∈ ([⟨5, 100⟩] : Store), r.id ≠ 7) ∧
      update_price [⟨5, 100⟩] 7 42 = ([⟨5, 100⟩], .error .NOT_FOUND) :=
  ⟨by decide, update_price_not_found [⟨5, 100⟩] 7 42 (by decide)⟩

/-- C7: `get(id)` on the empty collection fails with `NOT_FOUND` for every
`id`; `delete(id)` on a collection holding no record with identifier `id`
fails with `NOT_FOUND` and leaves the collection (hence its size)
unchanged. -/
theorem get_empty_delete_missing (s : Store) (id : Nat)
    (h : ∀ r ∈ s, r.id ≠ id) :
    get_price [] id = ([], .error .NOT_FOUND) ∧
      delete_price s id = (s, .error .NOT_FOUND) :=
  ⟨rfl, delete_price_of_not_mem s id h⟩

/-- C7 witness. -/
theorem get_empty_delete_missing_witness :
    (∀ r ∈ ([⟨5, 100⟩] : Store), r.id ≠ 7) ∧
      (get_price [] 7 = ([], .error .NOT_FOUND) ∧
        delete_price [⟨5, 100⟩] 7 = ([⟨5, 100⟩], .error .NOT_FOUND)) :=
  ⟨by decide, get_empty_delete_missing [⟨5, 100⟩] 7 (by decide)⟩

/-- C10: `get` and `list` are deterministic read-only functions of the
collection state: on equal states they return equal results, and neither
modifies the collection. -/
theorem get_list_read_only (s₁ s₂ : Store) (id : Nat) (h : s₁ = s₂) :
    get_price s₁ id = get_price s₂ id ∧
      get_prices s₁ = get_prices s₂ ∧
      (get_price s₁ id).1 = s₁ ∧
      (get_prices s₁).1 = s₁ :=
  ⟨h ▸ rfl, h ▸ rfl, get_price_fst s₁ id, rfl⟩

/-- C10 witness. -/
theorem get_list_read_only_witness :
    ([⟨5, 100⟩] : Store) = [⟨5, 100⟩] ∧
      (get_price [⟨5, 100⟩] 5 = get_price [⟨5, 100⟩] 5 ∧
        get_prices [⟨5, 100⟩] = get_prices [⟨5, 100⟩] ∧
        (get_price [⟨5, 100⟩] 5).1 = [⟨5, 100⟩] ∧
        (get_prices [⟨5, 100⟩]).1 = [⟨5, 100⟩]) :=
  ⟨rfl, get_list_read_only [⟨5, 100⟩] [⟨5, 100⟩] 5 rfl⟩

/-! ### Create / get interaction (C2) -/

/-- If `freshId` is borne by no stored record, the linear scan of the store
finds nothing. -/
lemma find?_eq_none_of_fresh (s : Store) (freshId : Nat)
    (h : freshId ∉ storeIds s) :
    s.find? (fun r => r.id == freshId) = none := by
  rw [List.find?_eq_none]
  intro r hr
  simp only [beq_iff_eq]
  intro hEq
  exact h (hEq ▸ List.mem_map_of_mem PriceDto.id hr)

/-- C2: `create(p)` returns the record `{freshId, p}` — its price is `p` and
its id is the freshly generated identifier — and `get(freshId)` on the
resulting collection returns that exact record. -/
theorem create_then_get (s : Store) (freshId p : Nat)
    (h : freshId ∉ storeIds s) :
    (create_price s freshId p).2 = ⟨freshId, p⟩ ∧
      (get_price (create_price s freshId p).1 freshId).2 =
        .ok (create_price s freshId p).2 := by
  refine ⟨rfl, ?_⟩
  have hfind : (s ++ [(⟨freshId, p⟩ : PriceDto)]).find?
      (fun r => r.id == freshId) = some ⟨freshId, p⟩ := by
    rw [List.find?_append, find?_eq_none_of_fresh s freshId h]
    simp [List.find?]
  simp [create_price, get_price, hfind]

/-- C2 witness. -/
theorem create_then_get_witness :
    (3 ∉ storeIds [⟨5, 100⟩]) ∧
      ((create_price [⟨5, 100⟩] 3 42).2 = ⟨3, 42⟩ ∧
        (get_price (create_price [⟨5, 100⟩] 3 42).1 3).2 =
          .ok (create_price [⟨5, 100⟩] 3 42).2) :=
  ⟨by decide, create_then_get [⟨5, 100⟩] 3 42 (by decide)⟩

/-! ### Update on an existing record (C3) -/

/-- Writing back the element already at a position leaves a list
unchanged. -/
lemma set_get_self {α : Type} (l : List α) (i : Nat) (a : α)
    (h : l.get? i = some a) : l.set i a = l := by
  induction l generalizing i with
  | nil => simp at h
  | cons x xs ih =>
    cases i with
    | zero =>
      simp only [List.get?_cons_zero, Option.some.injEq] at h
      simp [h]
    | succ n =>
      simp only [List.get?_cons_succ] at h
      simp [ih n h]

/-- `update_price` on a present id rewrites exactly the first matching
position with `⟨id, p⟩` and returns that record. -/
lemma update_price_eq_set (s : Store) (id p : Nat)
    (h : ∃ r ∈ s, r.id = id) :
    ∃ i r, s.get? i = some r ∧ r.id = id ∧
      update_price s id p = (s.set i ⟨id, p⟩, .ok ⟨id, p⟩) := by
  induction s with
  | nil => simp at h
  | cons a rest ih =>
    by_cases ha : a.id = id
    · refine ⟨0, a, rfl, ha, ?_⟩
      have hrec : ({ a with price := p } : PriceDto) = ⟨id, p⟩ := by
        cases a
        simp_all
      simp [update_price, ha, hrec]
    · have h' : ∃ r ∈ rest, r.id = id := by
        obtain ⟨r, hr, hrid⟩ := h
        rcases List.mem_cons.mp hr with h1 | h2
        · exact absurd (h1 ▸ hrid) ha
        · exact ⟨r, h2, hrid⟩
      obtain ⟨i, r, hget, hrid, heq⟩ := ih h'
      refine ⟨i + 1, r, by simpa using hget, hrid, ?_⟩
      simp [update_price, ha, heq]

/-- C3: `update(id, p)` on a collection containing a record with identifier
`id` changes only that record's price: the first position bearing `id` is
overwritten with `⟨id, p⟩` (its id unaltered), the collection's length and
the sequence of ids are unchanged, and every other position is unchanged. -/
theorem update_price_frame (s : Store) (id p : Nat)
    (h : ∃ r ∈ s, r.id = id) :
    ∃ i r, s.get? i = some r ∧ r.id = id ∧
      update_price s id p = (s.set i ⟨id, p⟩, .ok ⟨id, p⟩) ∧
      (s.set i ⟨id, p⟩).length = s.length ∧
      storeIds (s.set i ⟨id, p⟩) = storeIds s ∧
      ∀ j, j ≠ i → (s.set i ⟨id, p⟩).get? j = s.get? j := by
  obtain ⟨i, r, hget, hrid, heq⟩ := update_price_eq_set s id p h
  refine ⟨i, r, hget, hrid, heq, List.length_set s i ⟨id, p⟩, ?_, ?_⟩
  · unfold storeIds
    rw [List.map_set]
    exact set_get_self _ i id (by rw [List.get?_map, hget]; simp [hrid])
  · intro j hj
    simp [List.get?_eq_getElem?, List.getElem?_set_ne (Ne.symm hj)]

/-- C3 witness. -/
theorem update_price_frame_witness :
    (∃ r ∈ ([⟨5, 100⟩, ⟨7, 200⟩] : Store), r.id = 7) ∧
      ∃ i r, ([⟨5, 100⟩, ⟨7, 200⟩] : Store).get? i = some r ∧ r.id = 7 ∧
        update_price [⟨5, 100⟩, ⟨7, 200⟩] 7 42 =
          (([⟨5, 100⟩, ⟨7, 200⟩] : Store).set i ⟨7, 42⟩, .ok ⟨7, 42⟩) ∧
        (([⟨5, 100⟩, ⟨7, 200⟩] : Store).set i ⟨7, 42⟩).length =
          ([⟨5, 100⟩, ⟨7, 200⟩] : Store).length ∧
        storeIds (([⟨5, 100⟩, ⟨7, 200⟩] : Store).set i ⟨7, 42⟩) =
          storeIds [⟨5, 100⟩, ⟨7, 200⟩] ∧
        ∀ j, j ≠ i → (([⟨5, 100⟩, ⟨7, 200⟩] : Store).set i ⟨7, 42⟩).get? j =
          ([⟨5, 100⟩, ⟨7, 200⟩] : Store).get? j :=
  ⟨⟨⟨7, 200⟩, by decide, rfl⟩, update_price_frame [⟨5, 100⟩, ⟨7, 200⟩] 7 42
    ⟨⟨7, 200⟩, by decide, rfl⟩⟩

/-! ### Delete on an existing record (C5) -/

/-- `delete_price` on a present id removes exactly the first matching
position; when ids are unique, no record with that id survives. -/
lemma delete_price_eq_eraseIdx (s : Store) (id : Nat)
    (hnd : (storeIds s).Nodup) (h : ∃ r ∈ s, r.id = id) :
    ∃ i r, s.get? i = some r ∧ r.id = id ∧
      delete_price s id = (s.eraseIdx i, .ok .OK) ∧
      ∀ q ∈ s.eraseIdx i, q.id ≠ id := by
  induction s with
  | nil => simp at h
  | cons a rest ih =>
    have hnd' : a.id ∉ storeIds rest ∧ (storeIds rest).Nodup := by
      simpa [storeIds] using hnd
    by_cases ha : a.id = id
    · refine ⟨0, a, rfl, ha, by simp [delete_price, ha], ?_⟩
      intro q hq hqid
      exact hnd'.1 (ha ▸ hqid ▸ List.mem_map_of_mem PriceDto.id
        (by simpa using hq))
    · have h' : ∃ r ∈ rest, r.id = id := by
        obtain ⟨r, hr, hrid⟩ := h
        rcases List.mem_cons.mp hr with h1 | h2
        · exact absurd (h1 ▸ hrid) ha
        · exact ⟨r, h2, hrid⟩
      obtain ⟨i, r, hget, hrid, heq, hframe⟩ := ih hnd'.2 h'
      refine ⟨i + 1, r, by simpa using hget, hrid, ?_, ?_⟩
      · simp [delete_price, ha, heq]
      · intro q hq
        rcases List.mem_cons.mp (by simpa using hq) with h1 | h2
        · exact h1 ▸ ha
        · exact hframe q h2

/-- C5: `delete(id)` on a collection with unique ids containing a record
with identifier `id` succeeds, removes exactly that one record (the rest
survive as a sublist, in prior relative order), shrinks the collection by
exactly one, and a subsequent `get(id)` fails with `NOT_FOUND`. -/
theorem delete_price_removes (s : Store) (id : Nat)
    (hnd : (storeIds s).Nodup) (h : ∃ r ∈ s, r.id = id) :
    ∃ i r, s.get? i = some r ∧ r.id = id ∧
      delete_price s id = (s.eraseIdx i, .ok .OK) ∧
      (s.eraseIdx i).length + 1 = s.length ∧
      List.Sublist (s.eraseIdx i) s ∧
      (get_price (s.eraseIdx i) id).2 = .error .NOT_FOUND := by
  obtain ⟨i, r, hget, hrid, heq, hnone⟩ := delete_price_eq_eraseIdx s id hnd h
  have hlt : i < s.length := (List.get?_eq_some.mp hget).choose
  refine ⟨i, r, hget, hrid, heq, ?_, List.eraseIdx_sublist s i, ?_⟩
  · simp [List.length_eraseIdx, hlt]
    omega
  · have hfind : (s.eraseIdx i).find? (fun q => q.id == id) = none := by
      rw [List.find?_eq_none]
      intro q hq
      simpa using hnone q hq
    simp [get_price, hfind]

/-- C5 witness. -/
theorem delete_price_removes_witness :
    (storeIds ([⟨5, 100⟩, ⟨7, 200⟩] : Store)).Nodup ∧
      (∃ r ∈ ([⟨5, 100⟩, ⟨7, 200⟩] : Store), r.id = 7) ∧
      ∃ i r, ([⟨5, 100⟩, ⟨7, 200⟩] : Store).get? i = some r ∧ r.id = 7 ∧
        delete_price [⟨5, 100⟩, ⟨7, 200⟩] 7 =
          (([⟨5, 100⟩, ⟨7, 200⟩] : Store).eraseIdx i, .ok .OK) ∧
        (([⟨5, 100⟩, ⟨7, 200⟩] : Store).eraseIdx i).length + 1 =
          ([⟨5, 100⟩, ⟨7, 200⟩] : Store).length ∧
        List.Sublist (([⟨5, 100⟩, ⟨7, 200⟩] : Store).eraseIdx i)
          [⟨5, 100⟩, ⟨7, 200⟩] ∧
        (get_price (([⟨5, 100⟩, ⟨7, 200⟩] : Store).eraseIdx i) 7).2 =
          .error .NOT_FOUND :=
  ⟨by decide, ⟨⟨7, 200⟩, by decide, rfl⟩,
    delete_price_removes [⟨5, 100⟩, ⟨7, 200⟩] 7 (by decide)
      ⟨⟨7, 200⟩, by decide, rfl⟩⟩

/-! ### Id uniqueness across operation sequences (C1) -/

/-- `update_price` never changes the sequence of stored ids. -/
lemma update_price_fst_ids (s : Store) (id p : Nat) :
    storeIds (update_price s id p).1 = storeIds s := by
  induction s with
  | nil => rfl
  | cons a rest ih =>
    cases hb : (a.id == id) with
    | true => simp [update_price, hb, storeIds]
    | false =>
      simp only [update_price, hb, Bool.false_eq_true, if_false]
      simpa [storeIds] using ih

/-- `delete_price` only ever drops elements: its result is a sublist of the
input vector. -/
lemma delete_price_fst_sublist (s : Store) (id : Nat) :
    List.Sublist (delete_price s id).1 s := by
  induction s with
  | nil => simp [delete_price]
  | cons a rest ih =>
    cases hb : (a.id == id) with
    | true =>
      simp only [delete_price, hb, if_true]
      exact List.sublist_cons_self a rest
    | false =>
      simp only [delete_price, hb, Bool.false_eq_true, if_false]
      exact ih.cons₂ a

/-- After running any operation sequence, the stored ids form a sublist of
the initial ids followed by the ids handed out by the uuid generator. -/
lemma runFrom_ids_sublist (ops : List Op) (s : Store) :
    List.Sublist (storeIds (runFrom s ops)) (storeIds s ++ createIds ops) := by
  induction ops generalizing s with
  | nil => simp [runFrom, createIds]
  | cons op ops ih =>
    cases op with
    | create i p =>
      have hids : storeIds (applyOp s (.create i p)) = storeIds s ++ [i] := by
        simp [applyOp, create_price, storeIds]
      have hstep := ih (applyOp s (.create i p))
      rw [hids] at hstep
      simpa [runFrom, createIds, List.append_assoc] using hstep
    | update i p =>
      have hids : storeIds (applyOp s (.update i p)) = storeIds s :=
        update_price_fst_ids s i p
      have hstep := ih (applyOp s (.update i p))
      rw [hids] at hstep
      simpa [runFrom, createIds] using hstep
    | delete i =>
      have hstep := ih (applyOp s (.delete i))
      have hsub : List.Sublist (storeIds (applyOp s (.delete i)) ++ createIds ops)
          (storeIds s ++ createIds ops) :=
        ((delete_price_fst_sublist s i).map PriceDto.id).append_right (createIds ops)
      have := hstep.trans hsub
      simpa [runFrom, createIds] using this

/-- Taking a client-visible observation point keeps the generated-id list a
sublist of the full one. -/
lemma createIds_take_sublist (ops : List Op) (n : Nat) :
    List.Sublist (createIds (ops.take n)) (createIds ops) := by
  induction ops generalizing n with
  | nil => simp [createIds]
  | cons op ops ih =>
    cases n with
    | zero => simp [createIds]
    | succ m =>
      cases op with
      | create i p => simpa [createIds] using (ih m).cons₂ i
      | update i p => simpa [createIds] using ih m
      | delete i => simpa [createIds] using ih m

/-- C1: along any sequence of create/update/delete operations from the
empty collection, where the uuid generator never repeats an identifier
(the generated ids are pairwise distinct), the stored ids are pairwise
distinct at every observation point. -/
theorem unique_ids_invariant (ops : List Op)
    (h : (createIds ops).Nodup) (n : Nat) :
    (storeIds (run (ops.take n))).Nodup := by
  have h1 := runFrom_ids_sublist (ops.take n) []
  have h2 : List.Sublist (storeIds (run (ops.take n)))
      (createIds (ops.take n)) := by
    simpa [run, storeIds] using h1
  exact (h.sublist (createIds_take_sublist ops n)).sublist h2

/-- C1 witness. -/
theorem unique_ids_invariant_witness :
    (createIds [Op.create 1 10, Op.create 2 20, Op.delete 1,
      Op.update 2 99, Op.create 3 30]).Nodup ∧
      (storeIds (run (([Op.create 1 10, Op.create 2 20, Op.delete 1,
        Op.update 2 99, Op.create 3 30]).take 4))).Nodup :=
  ⟨by decide, unique_ids_invariant _ (by decide) 4⟩
